import Mathlib

/-
Verification of the routine-resolution / table-search core of the
mcp-protheus-expert repository (class RelatorioRotinaTool).

The TypeScript source is shallowly embedded: each private method of the
class becomes a Lean definition over explicit state (the process-lifetime
classification cache and the discovered-prefix set), and filesystem reads
become a lookup function String -> Option String (none = unreadable file).
JavaScript strings are modelled as Lean String (lists of characters);
toUpperCase is modelled on the ASCII range, which covers every character
the heuristics of this tool inspect.
-/

namespace MPE

/-- JS String.prototype.toUpperCase restricted to ASCII (the tool only
compares ASCII identifiers, includes and keywords). -/
def jsToUpper (s : String) : String := ⟨s.data.map Char.toUpper⟩

/-- The whitespace class of the JS regexes (ASCII part of \s) and of trim. -/
def isWS (c : Char) : Bool :=
  c = ' ' || c = '\t' || c = '\n' || c = '\r' || c = '\x0b' || c = '\x0c'

/-- JS String.prototype.trim (ASCII whitespace). -/
def jsTrim (s : String) : String :=
  ⟨((s.data.dropWhile isWS).reverse.dropWhile isWS).reverse⟩

/-- l begins with the list pre. -/
def startsWithL (l pre : List Char) : Bool := l.take pre.length == pre

/-- l ends with the list suf. -/
def endsWithL (l suf : List Char) : Bool :=
  suf.length ≤ l.length && l.drop (l.length - suf.length) == suf

/-- JS word character \w = [A-Za-z0-9_]. -/
def isWordChar (c : Char) : Bool := c.isAlphanum || c = '_'

/-- Split a character list at every occurrence of sep
(JS String.prototype.split with a one-character separator). -/
def splitCh (sep : Char) : List Char → List (List Char)
  | [] => [[]]
  | c :: rest =>
    if c = sep then [] :: splitCh sep rest
    else
      match splitCh sep rest with
      | [] => [[c]]
      | line :: more => (c :: line) :: more

/-- JS Array.prototype.join with a one-character separator. -/
def joinCh (sep : Char) : List (List Char) → List Char
  | [] => []
  | [l] => l
  | l :: ls => l ++ sep :: joinCh sep ls

/-- Helper of uniqueFirst: keeps elements not already seen. -/
def uniqueFirstAux (seen : List String) : List String → List String
  | [] => []
  | x :: xs =>
    if x ∈ seen then uniqueFirstAux seen xs
    else x :: uniqueFirstAux (x :: seen) xs

/-- De-duplicate keeping the first occurrence of each element
(JS `[...new Set(xs)]`). -/
def uniqueFirst (l : List String) : List String := uniqueFirstAux [] l

/-- Result of normalizeRoutineName (interface NormalizedRoutine).
The source field names withPrefix / withoutPrefix are rendered as
withPrefixForm / withoutPrefixForm. -/
structure NormalizedRoutine where
  original : String
  baseName : String
  baseNameUpper : String
  withPrefixForm : String
  withoutPrefixForm : String
  variations : List String
deriving DecidableEq, Repr

/-- The extension list of normalizeRoutineName, in source order. -/
def extensionsList : List String := [".prw", ".PRW", ".tlpp", ".TLPP", ".prx", ".PRX"]

/-- replace(/\.(prw|tlpp|prx)$/i, ''): strip one trailing recognized
extension, case-insensitively. -/
def stripExtension (s : String) : String :=
  let u := (jsToUpper s).data
  if endsWithL u ".PRW".data || endsWithL u ".PRX".data then
    ⟨s.data.take (s.data.length - 4)⟩
  else if endsWithL u ".TLPP".data then
    ⟨s.data.take (s.data.length - 5)⟩
  else s

/-- String.prototype.startsWith on whole strings. -/
def strStartsWith (s pre : String) : Bool := startsWithL s.data pre.data

/-- The raw variation list of normalizeRoutineName before de-duplication:
the four base forms followed, for each extension, by the four suffixed forms. -/
def rawVariations (baseNm baseNmUpper wp wo : String) : List String :=
  [baseNm, baseNmUpper, wp, wo] ++
    extensionsList.flatMap (fun e => [baseNm ++ e, baseNmUpper ++ e, wp ++ e, wo ++ e])

/-- normalizeRoutineName: trims the input (none when empty, the source
throws), strips one recognized extension, derives the U_-added and
U_-stripped upper-case forms, and builds the de-duplicated variation list. -/
def normalizeRoutineName (routine : String) : Option NormalizedRoutine :=
  let original := jsTrim routine
  if original.data = [] then none
  else
    let baseNm := stripExtension original
    let baseNmUpper := jsToUpper baseNm
    let hasMark := strStartsWith baseNmUpper "U_"
    let wo : String := if hasMark then ⟨baseNmUpper.data.drop 2⟩ else baseNmUpper
    let wp : String := if hasMark then baseNmUpper else "U_" ++ baseNmUpper
    some {
      original := original
      baseName := baseNm
      baseNameUpper := baseNmUpper
      withPrefixForm := wp
      withoutPrefixForm := wo
      variations := uniqueFirst (rawVariations baseNm baseNmUpper wp wo) }

/-- Token alphabet for the regular-expression fragments the tool uses.
Each constructor mirrors one regex construct appearing in the source. -/
inductive Tok where
  | lit (s : String)
  | ws1
  | ws0
  | uppers (n : Nat)
  | digits (n : Nat)
  | quoteCh
  | optQuoteCh
  | word1
deriving DecidableEq, Repr

/-- c is a quote character, double or single (regex class of quotes). -/
def isQuote (c : Char) : Bool := c = '"' || c.toNat = 39

/-- Match a token sequence at the head of l. Greedy consumption of
\s+ \s* and \w+ coincides with the regex semantics for every pattern in
the source, since no pattern follows them with a character of the same
class. -/
def matchToksAt : List Tok → List Char → Bool
  | [], _ => true
  | Tok.lit s :: ts, l => startsWithL l s.data && matchToksAt ts (l.drop s.data.length)
  | Tok.ws1 :: ts, l =>
    match l with
    | [] => false
    | c :: rest => isWS c && matchToksAt ts (rest.dropWhile isWS)
  | Tok.ws0 :: ts, l => matchToksAt ts (l.dropWhile isWS)
  | Tok.uppers n :: ts, l =>
    ((l.take n).length == n) && (l.take n).all Char.isUpper && matchToksAt ts (l.drop n)
  | Tok.digits n :: ts, l =>
    ((l.take n).length == n) && (l.take n).all Char.isDigit && matchToksAt ts (l.drop n)
  | Tok.quoteCh :: ts, l =>
    match l with
    | [] => false
    | c :: rest => isQuote c && matchToksAt ts rest
  | Tok.optQuoteCh :: ts, l =>
    match l with
    | [] => matchToksAt ts []
    | c :: rest => if isQuote c then matchToksAt ts rest else matchToksAt ts (c :: rest)
  | Tok.word1 :: ts, l =>
    match l with
    | [] => false
    | c :: rest => isWordChar c && matchToksAt ts (rest.dropWhile isWordChar)

/-- Unanchored regex test: the token sequence matches at some position. -/
def testPat (ts : List Tok) (l : List Char) : Bool :=
  (List.range (l.length + 1)).any (fun i => matchToksAt ts (l.drop i))

/-- JS String.prototype.includes. -/
def containsSub (l pat : List Char) : Bool :=
  (List.range (l.length + 1)).any (fun i => startsWithL (l.drop i) pat)

/-- \bP\b matches at position i of l (P made of word characters, as every
table identifier passed to these regexes is). -/
def wordBoundaryAt (l pat : List Char) (i : Nat) : Bool :=
  startsWithL (l.drop i) pat
  && (i == 0 || !(isWordChar (l.getD (i - 1) ' ')))
  && (l.length ≤ i + pat.length || !(isWordChar (l.getD (i + pat.length) ' ')))

/-- Whole-word occurrence test (regex \bP\b). -/
def containsWholeWord (l pat : List Char) : Bool :=
  (List.range (l.length + 1)).any (wordBoundaryAt l pat)

/-- Number of whole-word occurrences, as counted by match(/\bP\b/g):
word-delimited matches of a word-character pattern cannot overlap, so the
global match count equals the number of matching positions. -/
def countWholeWord (l pat : List Char) : Nat :=
  ((List.range (l.length + 1)).filter (wordBoundaryAt l pat)).length

/-- The four table-reference patterns of hasTableReference, applied to the
upper-cased content and upper-cased table name. -/
def hasTableReference (contentUpper tableUpper : String) : Bool :=
  let c := contentUpper.data
  containsWholeWord c tableUpper.data
  || testPat [.lit "DBSELECTAREA", .ws0, .lit "(", .ws0, .quoteCh, .lit tableUpper, .quoteCh] c
  || testPat [.lit "(", .quoteCh, .lit tableUpper, .quoteCh, .lit ")"] c
  || containsSub c (tableUpper.data ++ "->".data)

/-- The customIndicators regex list of analyzeFileContent. -/
def customIndicators : List (List Tok) :=
  [[.lit "USER", .ws1, .lit "FUNCTION"],
   [.lit "FUNCTION", .ws1, .lit "U_"],
   [.lit "STATIC", .ws1, .lit "FUNCTION", .ws1, .lit "U_"]]

/-- The standardIndicators regex list of analyzeFileContent. -/
def standardIndicators : List (List Tok) :=
  [[.lit "FUNCTION", .ws1, .uppers 4, .digits 3],
   [.lit "#INCLUDE", .ws1, .lit "\"PROTHEUS.CH\""],
   [.lit "#INCLUDE", .ws1, .lit "\"RWMAKE.CH\""],
   [.lit "STATIC", .ws1, .lit "FUNCTION", .ws1, .lit "MENU"],
   [.lit "WSSERVICE", .ws1],
   [.lit "WSRESTFUL", .ws1]]

/-- The text analyzeFileContent actually inspects: the first 200 lines of
the file, re-joined and upper-cased. -/
def prepContent (content : String) : List Char :=
  (joinCh '\n' ((splitCh '\n' content.data).take 200)).map Char.toUpper

/-- Some custom-marker pattern matches the inspected text. -/
def hasCustomMarker (content : String) : Bool :=
  customIndicators.any (fun p => testPat p (prepContent content))

/-- Some standard-marker pattern matches the inspected text. -/
def hasStandardMarker (content : String) : Bool :=
  standardIndicators.any (fun p => testPat p (prepContent content))

/-- analyzeFileContent: none models an unreadable file (the source catches
the read error and returns false); otherwise custom markers force false,
then standard markers force true, and the fallthrough default is true. -/
def analyzeFileContent : Option String → Bool
  | none => false
  | some content =>
    if hasCustomMarker content then false
    else if hasStandardMarker content then true
    else true

/-- The constant KNOWN_STANDARD_PREFIXES, transcribed in source order. -/
def KNOWN_STANDARD_PREFIXES : List String :=
  ["FATA", "FATC", "FATR", "FATM",
   "MATA", "MATC", "MATR", "MATM",
   "FINA", "FINC", "FINR", "FINM", "FINXFUN",
   "COMA", "COMC", "COMR", "COMM",
   "GPEA", "GPEC", "GPER", "GPEM", "GPEXFUN",
   "MNTA", "MNTC", "MNTR", "MNTM",
   "PCPA", "PCPC", "PCPR", "PCPM",
   "QIEA", "QIEC", "QIER", "QIEM", "QIEXFUN",
   "TECA", "TECC", "TECR", "TECM", "TECXFUN",
   "CRMA", "CRMC", "CRMR", "CRMM",
   "TMKA", "TMKC", "TMKR", "TMKM",
   "JURA", "JURC", "JURR", "JURM",
   "VEICA", "VEICC", "VEICR",
   "OFIA", "OFIC", "OFIR", "OFIM",
   "CTBA", "CTBC", "CTBR", "CTBM", "CTBXFUN",
   "ESTA", "ESTC", "ESTR", "ESTM",
   "LOJA", "LOJC", "LOJR", "LOJM",
   "PONA", "PONC", "PONR", "PONM", "PONXFUN",
   "FISA", "FISC", "FISR", "FISM",
   "FWMVC", "FWBROWSE", "FWFORM",
   "APCFG", "APWIZ",
   "CFGA", "CFGC", "CFGR", "CFGM", "CFGX",
   "BIXA", "BIXC",
   "AGRA", "AGRC", "AGRR",
   "OMSA", "OMSC", "OMSR",
   "WFFA", "WFFC",
   "EICA", "EICC"]

/-- matchesKnownPrefix: the stripped upper-cased name starts with some
entry of the static table or of the discovered set. -/
def matchesKnownPrefixes (discovered : List String) (routineName : String) : Bool :=
  (KNOWN_STANDARD_PREFIXES ++ discovered).any
    (fun p => strStartsWith routineName (jsToUpper p))

/-- replace(/^U_/, ''). -/
def stripU (s : String) : String :=
  if strStartsWith s "U_" then ⟨s.data.drop 2⟩ else s

/-- The naming-pattern criterion /^[A-Z]{4}\d{3}/. -/
def matchesStdNamePattern (s : String) : Bool :=
  matchToksAt [.uppers 4, .digits 3] s.data

/-- The process-lifetime mutable state of RelatorioRotinaTool: the
classification cache (Map, modelled as a most-recent-first association
list) and the discovered-prefix set (Set, modelled as an insertion-ordered
duplicate-free list). -/
structure ClassifierState where
  standardPrefixCache : List (String × Bool)
  discoveredPrefixes : List String
deriving DecidableEq, Repr

/-- State of a freshly constructed tool instance. -/
def initialState : ClassifierState := ⟨[], []⟩

/-- Map.get on the association-list model. -/
def lookupCache (m : List (String × Bool)) (k : String) : Option Bool :=
  match m.find? (fun p => p.1 == k) with
  | some p => some p.2
  | none => none

/-- Outcome of one isStandardRoutine call: the boolean decision, the
updated state, and whether file content was read during the call (the
observable the spec's memoization property talks about). -/
structure ClassifyResult where
  isStandard : Bool
  state : ClassifierState
  readFile : Bool
deriving DecidableEq, Repr

/-- isStandardRoutine: cache lookup on the stripped upper-cased name, then
the four criteria in source order (U_ prefix, known-prefix table, file
content when a path is supplied, naming pattern), then cache insertion. -/
def isStandardRoutine (st : ClassifierState) (fs : String → Option String)
    (routineName : String) (filePath : Option String) : ClassifyResult :=
  let upperName := stripU (jsToUpper routineName)
  match lookupCache st.standardPrefixCache upperName with
  | some b => ⟨b, st, false⟩
  | none =>
    let step : Bool × Bool :=
      if strStartsWith (jsToUpper routineName) "U_" then (false, false)
      else if matchesKnownPrefixes st.discoveredPrefixes upperName then (true, false)
      else
        match filePath with
        | some fp => (analyzeFileContent (fs fp), true)
        | none => (matchesStdNamePattern upperName, false)
    ⟨step.1, { st with standardPrefixCache := (upperName, step.1) :: st.standardPrefixCache },
      step.2⟩

/-- Last path segment (path.basename, separator '/'). -/
def basename (p : String) : String := ⟨(splitCh '/' p.data).getLastD []⟩

/-- Strip path.extname from a basename: remove the part after the last
dot, unless that dot is the leading character. -/
def dropDotExt (b : List Char) : List Char :=
  let parts := splitCh '.' b
  if parts.length ≤ 1 then b
  else if parts.length == 2 && parts.headD [] == [] then b
  else joinCh '.' parts.dropLast

/-- path.basename(p, path.extname(p)). -/
def basenameNoExt (p : String) : String := ⟨dropDotExt (basename p).data⟩

/-- Leading-letter extraction ^([A-Z]{3,4}) of discoverStandardPrefixes:
greedy, so four letters when available, else three, else no match. -/
def matchLeadingLetters (name : String) : Option String :=
  match name.data with
  | c1 :: c2 :: c3 :: rest =>
    if c1.isUpper && c2.isUpper && c3.isUpper then
      match rest with
      | c4 :: _ => if c4.isUpper then some ⟨[c1, c2, c3, c4]⟩ else some ⟨[c1, c2, c3]⟩
      | [] => some ⟨[c1, c2, c3]⟩
    else none
  | _ => none

/-- Set.add on the insertion-ordered list model. -/
def setAdd (s : List String) (x : String) : List String :=
  if x ∈ s then s else s ++ [x]

/-- discoverStandardPrefixes: walk the vendor-standard file list, content-
classify each file, and record the leading 3-4 letters of the basename of
every file classified standard. Read failures make analyzeFileContent
return false, so they are skipped without aborting the pass. -/
def discoverStandardPrefixes (st : ClassifierState) (fs : String → Option String)
    (files : List String) : ClassifierState :=
  files.foldl
    (fun acc fp =>
      if analyzeFileContent (fs fp) then
        match matchLeadingLetters (basenameNoExt fp) with
        | some pfx => { acc with discoveredPrefixes := setAdd acc.discoveredPrefixes pfx }
        | none => acc
      else acc)
    st

/-- The lazy-discovery guard of execute (lines 1323-1327 of the source):
the pass runs exactly when the discovered-prefix set is empty. The Bool
records whether the pass executed during this standard-routine lookup. -/
def discoverIfFirst (st : ClassifierState) (fs : String → Option String)
    (vendorFiles : List String) : ClassifierState × Bool :=
  if st.discoveredPrefixes.isEmpty then (discoverStandardPrefixes st fs vendorFiles, true)
  else (st, false)

/-- The usage categories of a table-search row. -/
inductive UsageType where
  | Browse | Report | Integration | CRUD | Query | Other
deriving DecidableEq, Repr

/-- The RECLOCK-with-.T. insert pattern /RECLOCK\s*\(\s*["']?\w+["']?\s*,\s*\.T\./i,
evaluated on the upper-cased content (equivalent to the case-insensitive
regex on the original content over ASCII). -/
def reclockTruePat : List Tok :=
  [.lit "RECLOCK", .ws0, .lit "(", .ws0, .optQuoteCh, .word1, .optQuoteCh, .ws0,
   .lit ",", .ws0, .lit ".T."]

/-- The RECLOCK-with-.F. update pattern. -/
def reclockFalsePat : List Tok :=
  [.lit "RECLOCK", .ws0, .lit "(", .ws0, .optQuoteCh, .word1, .optQuoteCh, .ws0,
   .lit ",", .ws0, .lit ".F."]

/-- /A.*B/s: an occurrence of a followed (anywhere later) by b. -/
def seqContains (l a b : List Char) : Bool :=
  (List.range (l.length + 1)).any
    (fun i => startsWithL (l.drop i) a && containsSub ((l.drop i).drop a.length) b)

/-- Case-insensitive function-declaration capture at one position:
kw \s+ FUNCTION \s+ (\w+), with the captured name taken from the original
content (the /gi regexes of analyzeTableUsage). -/
def funcNameAt (kw : List Char) (orig : List Char) (i : Nat) : Option String :=
  let u := (orig.map Char.toUpper).drop i
  if startsWithL u kw then
    match u.drop kw.length with
    | c :: r2 =>
      if isWS c then
        let r3 := r2.dropWhile isWS
        if startsWithL r3 "FUNCTION".data then
          match r3.drop 8 with
          | d :: r5 =>
            if isWS d then
              let r6 := r5.dropWhile isWS
              match r6 with
              | e :: _ =>
                if isWordChar e then
                  some ⟨((orig.drop (orig.length - r6.length)).takeWhile isWordChar)⟩
                else none
              | [] => none
            else none
          | [] => none
        else none
      else none
    | [] => none
  else none

/-- All captured declaration names for one keyword, de-duplicated in
first-seen order (matchAll followed by new Set). -/
def collectFuncNames (kw : String) (content : String) : List String :=
  uniqueFirst ((List.range (content.data.length + 1)).filterMap (funcNameAt kw.data content.data))

/-- The record computed by analyzeTableUsage. -/
structure TableUsage where
  usageType : UsageType
  references : Nat
  hasBrowse : Bool
  hasInsert : Bool
  hasUpdate : Bool
  hasDelete : Bool
  userFunctions : List String
  staticFunctions : List String
deriving DecidableEq, Repr

/-- analyzeTableUsage: reference count, browse and CRUD flags, declared
function names, and the first-match-wins usage category. -/
def analyzeTableUsage (content tableUpper : String) : TableUsage :=
  let cu := (jsToUpper content).data
  let references := countWholeWord cu tableUpper.data
  let hasBrowse := ["MBROWSE", "FWMBROWSE", "FWMARKBROWSE", "MSSELECT"].any
    (fun kw => containsSub cu kw.data)
  let hasInsert := testPat reclockTruePat cu || containsSub cu "DBAPPEND".data
  let hasUpdate := testPat reclockFalsePat cu
  let hasDelete := containsSub cu "DBDELETE".data ||
    seqContains cu "RECLOCK".data "DBDELETE".data
  let usageType : UsageType :=
    if hasBrowse then .Browse
    else if hasInsert || hasUpdate || hasDelete then .CRUD
    else if containsSub cu "TCQUERY".data || containsSub cu "SELECT ".data then .Query
    else if containsSub cu "TMSPRINTER".data || containsSub cu "TREPORT".data then .Report
    else if containsSub cu "WSSERVICE".data || containsSub cu "WSRESTFUL".data then .Integration
    else .Other
  { usageType := usageType
    references := references
    hasBrowse := hasBrowse
    hasInsert := hasInsert
    hasUpdate := hasUpdate
    hasDelete := hasDelete
    userFunctions := collectFuncNames "USER" content
    staticFunctions := collectFuncNames "STATIC" content }

/-- One row of a table search (interface TableSearchResult). -/
structure TableSearchResult where
  routine : String
  file : String
  filePath : String
  usageType : UsageType
  references : Nat
  hasBrowse : Bool
  hasInsert : Bool
  hasUpdate : Bool
  hasDelete : Bool
  userFunctions : List String
  staticFunctions : List String
deriving DecidableEq, Repr

/-- The typeOrder map of the sort comparator: Browse 1, CRUD 2, Query 3,
Report 4, Integration 5, Other 6. -/
def typeOrder : UsageType → Nat
  | .Browse => 1
  | .CRUD => 2
  | .Query => 3
  | .Report => 4
  | .Integration => 5
  | .Other => 6

/-- a precedes-or-ties b under the sort comparator (category rank
ascending, then reference count descending). -/
def rowLE (a b : TableSearchResult) : Bool :=
  typeOrder a.usageType < typeOrder b.usageType
  || (typeOrder a.usageType == typeOrder b.usageType && b.references ≤ a.references)

/-- Ordered insertion under rowLE. -/
def insertRow (x : TableSearchResult) : List TableSearchResult → List TableSearchResult
  | [] => [x]
  | y :: ys => if rowLE x y then x :: y :: ys else y :: insertRow x ys

/-- results.sort(comparator): any comparison sort realizes the same sorted
order up to ties; insertion sort is used as the model. -/
def sortRows : List TableSearchResult → List TableSearchResult
  | [] => []
  | x :: xs => insertRow x (sortRows xs)

/-- The per-file loop of executeSearchByTable: skip unreadable files, skip
files without a table reference, classify (stateful), skip standard
routines unless requested, append the row, and stop when the appended
list reaches maxResults. -/
def searchGo (fs : String → Option String) (tblU : String) (includeStandard : Bool)
    (maxResults : Nat) :
    List String → ClassifierState → List TableSearchResult →
    List TableSearchResult × ClassifierState
  | [], st, acc => (acc, st)
  | fp :: rest, st, acc =>
    match fs fp with
    | none => searchGo fs tblU includeStandard maxResults rest st acc
    | some content =>
      if !hasTableReference (jsToUpper content) tblU then
        searchGo fs tblU includeStandard maxResults rest st acc
      else
        let fileName := basenameNoExt fp
        let r := isStandardRoutine st fs fileName (some fp)
        if r.isStandard && !includeStandard then
          searchGo fs tblU includeStandard maxResults rest r.state acc
        else
          let a := analyzeTableUsage content tblU
          let row : TableSearchResult := {
            routine := fileName
            file := basename fp
            filePath := fp
            usageType := a.usageType
            references := a.references
            hasBrowse := a.hasBrowse
            hasInsert := a.hasInsert
            hasUpdate := a.hasUpdate
            hasDelete := a.hasDelete
            userFunctions := a.userFunctions
            staticFunctions := a.staticFunctions }
          let acc2 := acc ++ [row]
          if maxResults ≤ acc2.length then (acc2, r.state)
          else searchGo fs tblU includeStandard maxResults rest r.state acc2

/-- The summary block of a successful table search. -/
structure SearchSummary where
  browseRoutines : Nat
  crudRoutines : Nat
  reportRoutines : Nat
  otherRoutines : Nat
deriving DecidableEq, Repr

/-- The success envelope of executeSearchByTable. -/
structure SearchOutcome where
  ok : Bool
  table : String
  totalFound : Nat
  results : List TableSearchResult
  summary : SearchSummary
deriving DecidableEq, Repr

/-- executeSearchByTable: run the collection loop over the indexed file
list, sort, and build the envelope with the per-category counts. -/
def executeSearchByTable (st : ClassifierState) (fs : String → Option String)
    (allFiles : List String) (tableName : String) (includeStandard : Bool)
    (maxResults : Nat) : SearchOutcome × ClassifierState :=
  let tblU := jsToUpper tableName
  let res := searchGo fs tblU includeStandard maxResults allFiles st []
  let sorted := sortRows res.1
  ({ ok := true
     table := tableName
     totalFound := sorted.length
     results := sorted
     summary := {
       browseRoutines := (sorted.filter (fun r => r.usageType == UsageType.Browse)).length
       crudRoutines := (sorted.filter (fun r => r.usageType == UsageType.CRUD)).length
       reportRoutines := (sorted.filter (fun r => r.usageType == UsageType.Report)).length
       otherRoutines := (sorted.filter
         (fun r => !([UsageType.Browse, UsageType.CRUD, UsageType.Report].contains r.usageType))).length } },
   res.2)

/-- path.join of the repository root and one filename variation. -/
def pathJoin (a b : String) : String := a ++ "/" ++ b

/-- findRoutineFile: direct existence test of root/variation in variation
order, then a scan of the recursive walk result comparing upper-cased
basenames against every upper-cased variation. fileExists models
fs.access; walkFiles models the result of getAllFilesRecursive. -/
def findRoutineFile (fileExists : String → Bool) (walkFiles : List String)
    (repoPath : String) (n : NormalizedRoutine) : Option String :=
  match n.variations.find? (fun v => fileExists (pathJoin repoPath v)) with
  | some v => some (pathJoin repoPath v)
  | none =>
    walkFiles.find? (fun fp =>
      n.variations.any (fun v => jsToUpper (basename fp) == jsToUpper v))

/-- The `  - v` lines of the not-found message: map then join('\n'). -/
def fmtVariationLines : List String → String
  | [] => ""
  | [v] => "  - " ++ v
  | v :: vs => "  - " ++ v ++ "\n" ++ fmtVariationLines vs

/-- The not-found message template of execute (lines 1379-1382), grouped
as prefix ++ variation block ++ suffix (string concatenation is
associative, so the grouping does not change the value). -/
def notFoundMessage (routine env repoPath : String) (variations : List String) : String :=
  ("Rotina \"" ++ routine ++ "\" nao encontrada em " ++ env ++ ".\n\n" ++
    "Caminho pesquisado: " ++ repoPath ++ "\n" ++ "Variacoes procuradas:\n")
  ++ fmtVariationLines (variations.take 10)
  ++ ("\n" ++
    (if 10 < variations.length then
      "  ... e mais " ++ toString (variations.length - 10) ++ " variacoes"
    else ""))

/-- The structured not-found envelope of execute: ok flag, resolved
environment and root, message, and the debug payload (searchedPath,
searchedVariations). -/
structure NotFoundInfo where
  ok : Bool
  env : String
  repoPath : String
  routine : String
  message : String
  searchedPath : String
  searchedVariations : List String
deriving DecidableEq, Repr

/-- Outcome of the file-location step of execute: either the absolute path
or the structured not-found envelope (never an exception). -/
inductive LookupOutcome where
  | found (filePath : String)
  | notFound (info : NotFoundInfo)
deriving DecidableEq, Repr

/-- The file-location step of execute (lines 1371-1390): call
findRoutineFile and build the not-found envelope when it returns null. -/
def lookupRoutineFile (fileExists : String → Bool) (walkFiles : List String)
    (finalEnv finalRepoPath routine : String) (n : NormalizedRoutine) : LookupOutcome :=
  match findRoutineFile fileExists walkFiles finalRepoPath n with
  | some fp => .found fp
  | none => .notFound {
      ok := false
      env := finalEnv
      repoPath := finalRepoPath
      routine := routine
      message := notFoundMessage routine finalEnv finalRepoPath n.variations
      searchedPath := finalRepoPath
      searchedVariations := n.variations }

/- Supporting lemmas about the helper definitions. -/

theorem uniqueFirstAux_spec (l : List String) : ∀ seen : List String,
    (uniqueFirstAux seen l).Nodup ∧ ∀ a ∈ uniqueFirstAux seen l, a ∉ seen := by
  induction l with
  | nil => intro seen; simp [uniqueFirstAux]
  | cons x xs ih =>
    intro seen
    by_cases hx : x ∈ seen
    · simpa [uniqueFirstAux, hx] using ih seen
    · obtain ⟨hn, hs⟩ := ih (x :: seen)
      refine ⟨?_, ?_⟩
      · simp only [uniqueFirstAux, if_neg hx]
        exact List.nodup_cons.mpr
          ⟨fun hmem => (hs x hmem) (List.mem_cons_self x seen), hn⟩
      · intro a ha
        simp only [uniqueFirstAux, if_neg hx, List.mem_cons] at ha
        rcases ha with rfl | ha
        · exact hx
        · exact fun hseen => hs a ha (List.mem_cons_of_mem _ hseen)

theorem mem_uniqueFirstAux (l : List String) : ∀ (seen : List String) (a : String),
    a ∈ uniqueFirstAux seen l ↔ a ∈ l ∧ a ∉ seen := by
  induction l with
  | nil => intro seen a; simp [uniqueFirstAux]
  | cons x xs ih =>
    intro seen a
    by_cases hx : x ∈ seen
    · rw [uniqueFirstAux, if_pos hx, ih]
      constructor
      · rintro ⟨ha, hns⟩; exact ⟨List.mem_cons_of_mem _ ha, hns⟩
      · rintro ⟨ha, hns⟩
        rcases List.mem_cons.mp ha with rfl | ha
        · exact absurd hx hns
        · exact ⟨ha, hns⟩
    · rw [uniqueFirstAux, if_neg hx]
      simp only [List.mem_cons, ih (x :: seen) a]
      constructor
      · rintro (rfl | ⟨ha, hns⟩)
        · exact ⟨Or.inl rfl, hx⟩
        · exact ⟨Or.inr ha, fun h => hns (Or.inr h)⟩
      · rintro ⟨rfl | ha, hns⟩
        · exact Or.inl rfl
        · by_cases hax : a = x
          · exact Or.inl hax
          · refine Or.inr ⟨ha, fun h => ?_⟩
            rcases h with h1 | h2
            · exact hax h1
            · exact hns h2

theorem uniqueFirst_nodup (l : List String) : (uniqueFirst l).Nodup :=
  (uniqueFirstAux_spec l []).1

theorem mem_uniqueFirst (l : List String) (a : String) :
    a ∈ uniqueFirst l ↔ a ∈ l := by
  simp [uniqueFirst, mem_uniqueFirstAux]

theorem uniqueFirst_cons_ne_nil (x : String) (xs : List String) :
    uniqueFirst (x :: xs) ≠ [] := by
  simp [uniqueFirst, uniqueFirstAux]

/- Claim C1. The claim asserts that a U_-prefixed name is always classified
custom, regardless of earlier classification calls in the same process.
The code consults the memo cache, keyed by the PREFIX-STRIPPED name, before
the U_ rule, so an earlier standard classification of the stripped name is
returned for the U_-prefixed name as well. -/

/-- C1 counterexample: classifying MATA010 first (standard, by the known-
prefix table) makes a later call for U_MATA010 — a name carrying the
custom-indicator prefix — return standard (true), not custom (false). -/
theorem c1_counterexample :
    strStartsWith (jsToUpper "U_MATA010") "U_" = true ∧
    (isStandardRoutine initialState (fun _ => none) "MATA010" none).isStandard = true ∧
    (isStandardRoutine
        (isStandardRoutine initialState (fun _ => none) "MATA010" none).state
        (fun _ => none) "U_MATA010" none).isStandard = true := by
  decide

/-- C1 amended: whenever the stripped upper-cased name is not already in
the classification cache, a name beginning with U_ (case-insensitive) is
classified custom, for every file system, every supplied file path and
every discovered-prefix set. -/
theorem c1_custom_rule_authoritative_when_uncached
    (st : ClassifierState) (fs : String → Option String) (name : String)
    (fp : Option String)
    (hU : strStartsWith (jsToUpper name) "U_" = true)
    (hc : lookupCache st.standardPrefixCache (stripU (jsToUpper name)) = none) :
    (isStandardRoutine st fs name fp).isStandard = false := by
  simp [isStandardRoutine, hc, hU]

/-- C1 witness: the amended theorem applied at U_MATA010 in a fresh state. -/
theorem c1_custom_rule_authoritative_when_uncached_witness :
    (isStandardRoutine initialState (fun _ => none) "U_MATA010" none).isStandard = false :=
  c1_custom_rule_authoritative_when_uncached initialState (fun _ => none) "U_MATA010" none
    (by decide) (by decide)

/- Claim C2. The claim asserts the discovery pass runs at most once per
process. The guard is emptiness of the discovered set, so a pass that
discovers no prefix (here: a vendor tree whose only file is unreadable,
which the pass logs and skips) runs again on the next standard lookup. -/

/-- C2 counterexample: with a vendor tree containing one unreadable file
the pass discovers nothing, and a second standard-routine lookup executes
the pass again — it does not run at most once per process lifetime. -/
theorem c2_counterexample :
    (discoverIfFirst initialState (fun _ => none) ["vendor/MATA010.PRW"]).2 = true ∧
    (discoverIfFirst
        (discoverIfFirst initialState (fun _ => none) ["vendor/MATA010.PRW"]).1
        (fun _ => none) ["vendor/MATA010.PRW"]).2 = true := by
  decide

/-- C2 amended: the pass is triggered on a standard-routine lookup exactly
when the discovered-prefix set is empty: it runs on the first lookup of a
fresh process, and is never executed again once some pass has discovered
at least one prefix. -/
theorem c2_discovery_guard :
    (∀ (fs : String → Option String) (v : List String),
      (discoverIfFirst initialState fs v).2 = true) ∧
    (∀ (st : ClassifierState) (fs : String → Option String) (v : List String),
      st.discoveredPrefixes ≠ [] → discoverIfFirst st fs v = (st, false)) := by
  constructor
  · intro fs v; simp [discoverIfFirst, initialState]
  · intro st fs v h
    simp [discoverIfFirst, List.isEmpty_iff, h]

/-- C2 witness: a state that already discovered the prefix MATA skips the
pass on a later lookup. -/
theorem c2_discovery_guard_witness :
    discoverIfFirst ⟨[], ["MATA"]⟩ (fun _ => none) ["vendor/X.prw"]
      = (⟨[], ["MATA"]⟩, false) :=
  c2_discovery_guard.2 ⟨[], ["MATA"]⟩ (fun _ => none) ["vendor/X.prw"] (by decide)

/- Claim C4: memoization of isStandardRoutine. -/

/-- C4: when the stripped upper-cased name is already cached, the call
returns exactly the cached boolean, reads no file content, and leaves the
state unchanged — whichever rule produced the cached value and whatever
file path is supplied. -/
theorem c4_memoized_lookup (st : ClassifierState) (fs : String → Option String)
    (name : String) (fp : Option String) (b : Bool)
    (h : lookupCache st.standardPrefixCache (stripU (jsToUpper name)) = some b) :
    isStandardRoutine st fs name fp = ⟨b, st, false⟩ := by
  simp [isStandardRoutine, h]

/-- C4 witness: a cache holding FOO ↦ true short-circuits a second call,
here for the U_-prefixed spelling of the same stripped name. -/
theorem c4_memoized_lookup_witness :
    isStandardRoutine ⟨[("FOO", true)], []⟩ (fun _ => none) "U_foo" (some "p/foo.prw")
      = ⟨true, ⟨[("FOO", true)], []⟩, false⟩ :=
  c4_memoized_lookup ⟨[("FOO", true)], []⟩ (fun _ => none) "U_foo" (some "p/foo.prw") true
    (by decide)

/- Claim C6: the hasTableReference patterns for table PD3. The caller
upper-cases file content before the test, mirrored here by jsToUpper. -/

/-- C6: hasTableReference for PD3 accepts a bare word PD3 (alone or inside
a line), DbSelectArea("PD3"), ("PD3") and PD3->FIELD, and rejects content
containing only PD30 or only APD3. -/
theorem c6_hasTableReference_examples :
    hasTableReference (jsToUpper "PD3") "PD3" = true ∧
    hasTableReference (jsToUpper "local x := PD3 + 1") "PD3" = true ∧
    hasTableReference (jsToUpper "DbSelectArea(\"PD3\")") "PD3" = true ∧
    hasTableReference (jsToUpper "(\"PD3\")") "PD3" = true ∧
    hasTableReference (jsToUpper "PD3->FIELD") "PD3" = true ∧
    hasTableReference (jsToUpper "PD30") "PD3" = false ∧
    hasTableReference (jsToUpper "APD3") "PD3" = false := by
  decide

/- Claim C5: normalizeRoutineName properties. -/

/-- C5: for every input whose trimmed form is non-empty, the variation
list is non-empty and duplicate-free; the function is deterministic (it is
a pure function of its input); and on U_PCMCTF43.prw it yields base name
U_PCMCTF43, stripped form PCMCTF43, and a variation list containing both
PCMCTF43.prw and U_PCMCTF43.PRW. -/
theorem c5_normalize_properties :
    (∀ r : String, (jsTrim r).data ≠ [] →
      ∃ n, normalizeRoutineName r = some n ∧ n.variations ≠ [] ∧ n.variations.Nodup) ∧
    (∀ r : String, normalizeRoutineName r = normalizeRoutineName r) ∧
    (∃ n, normalizeRoutineName "U_PCMCTF43.prw" = some n ∧
      n.baseName = "U_PCMCTF43" ∧ n.withoutPrefixForm = "PCMCTF43" ∧
      "PCMCTF43.prw" ∈ n.variations ∧ "U_PCMCTF43.PRW" ∈ n.variations) := by
  refine ⟨?_, fun r => rfl, by decide⟩
  intro r hr
  simp only [normalizeRoutineName, if_neg hr]
  exact ⟨_, rfl, uniqueFirst_cons_ne_nil _ _, uniqueFirst_nodup _⟩

/-- C5 witness: the universal part applied to the concrete input MINHA. -/
theorem c5_normalize_properties_witness :
    (jsTrim "MINHA").data ≠ [] ∧
    ∃ n, normalizeRoutineName "MINHA" = some n ∧
      n.variations ≠ [] ∧ n.variations.Nodup :=
  ⟨by decide, c5_normalize_properties.1 "MINHA" (by decide)⟩

/- Claim C8: analyzeFileContent decision rules. -/

/-- C8: an unreadable file is classified custom (false) without the
failure propagating (the function is total); a custom-marker match forces
custom; otherwise a standard-marker match forces standard; with neither
marker the file is classified standard; and the decision depends only on
the first 200 lines of the content. -/
theorem c8_analyzeFileContent_rules :
    analyzeFileContent none = false ∧
    (∀ c : String, hasCustomMarker c = true → analyzeFileContent (some c) = false) ∧
    (∀ c : String, hasCustomMarker c = false → hasStandardMarker c = true →
      analyzeFileContent (some c) = true) ∧
    (∀ c : String, hasCustomMarker c = false → hasStandardMarker c = false →
      analyzeFileContent (some c) = true) ∧
    (∀ c₁ c₂ : String,
      (splitCh '\n' c₁.data).take 200 = (splitCh '\n' c₂.data).take 200 →
      analyzeFileContent (some c₁) = analyzeFileContent (some c₂)) := by
  refine ⟨rfl, ?_, ?_, ?_, ?_⟩
  · intro c h; simp [analyzeFileContent, h]
  · intro c h1 h2; simp [analyzeFileContent, h1, h2]
  · intro c h1 h2; simp [analyzeFileContent, h1, h2]
  · intro c₁ c₂ h
    have hp : prepContent c₁ = prepContent c₂ := by
      unfold prepContent; rw [h]
    simp [analyzeFileContent, hasCustomMarker, hasStandardMarker, hp]

/-- C8 witness: content whose only marker is the vendor include is
classified standard by the second rule. -/
theorem c8_analyzeFileContent_rules_witness :
    hasCustomMarker "#include \"protheus.ch\"" = false ∧
    hasStandardMarker "#include \"protheus.ch\"" = true ∧
    analyzeFileContent (some "#include \"protheus.ch\"") = true :=
  ⟨by decide, by decide,
    c8_analyzeFileContent_rules.2.2.1 "#include \"protheus.ch\"" (by decide) (by decide)⟩

/- Supporting lemmas for the sort comparator and the result counts. -/

theorem rowLE_total (a b : TableSearchResult) : rowLE a b = true ∨ rowLE b a = true := by
  simp only [rowLE, Bool.or_eq_true, Bool.and_eq_true, decide_eq_true_eq, beq_iff_eq]
  omega

theorem rowLE_trans {a b c : TableSearchResult}
    (h₁ : rowLE a b = true) (h₂ : rowLE b c = true) : rowLE a c = true := by
  simp only [rowLE, Bool.or_eq_true, Bool.and_eq_true, decide_eq_true_eq, beq_iff_eq]
    at h₁ h₂ ⊢
  omega

theorem mem_insertRow (x : TableSearchResult) (l : List TableSearchResult)
    (a : TableSearchResult) : a ∈ insertRow x l ↔ a = x ∨ a ∈ l := by
  induction l with
  | nil => simp [insertRow]
  | cons y ys ih =>
    by_cases h : rowLE x y = true
    · simp [insertRow, h, List.mem_cons]
    · simp [insertRow, h, List.mem_cons, ih]
      tauto

theorem pairwise_insertRow (x : TableSearchResult) (l : List TableSearchResult)
    (hl : l.Pairwise (fun a b => rowLE a b = true)) :
    (insertRow x l).Pairwise (fun a b => rowLE a b = true) := by
  induction l with
  | nil => simp [insertRow]
  | cons y ys ih =>
    rcases List.pairwise_cons.mp hl with ⟨hy, hys⟩
    by_cases h : rowLE x y = true
    · rw [insertRow, if_pos h]
      refine List.pairwise_cons.mpr ⟨?_, hl⟩
      intro z hz
      rcases List.mem_cons.mp hz with rfl | hz
      · exact h
      · exact rowLE_trans h (hy z hz)
    · rw [insertRow, if_neg h]
      refine List.pairwise_cons.mpr ⟨?_, ih hys⟩
      intro z hz
      rcases (mem_insertRow x ys z).mp hz with heq | hz
      · rw [heq]
        rcases rowLE_total x y with h1 | h2
        · exact absurd h1 h
        · exact h2
      · exact hy z hz

theorem pairwise_sortRows (l : List TableSearchResult) :
    (sortRows l).Pairwise (fun a b => rowLE a b = true) := by
  induction l with
  | nil => simp [sortRows]
  | cons x xs ih =>
    rw [sortRows]
    exact pairwise_insertRow x (sortRows xs) ih

theorem length_insertRow (x : TableSearchResult) (l : List TableSearchResult) :
    (insertRow x l).length = l.length + 1 := by
  induction l with
  | nil => rfl
  | cons y ys ih => by_cases h : rowLE x y = true <;> simp [insertRow, h, ih]

theorem length_sortRows (l : List TableSearchResult) :
    (sortRows l).length = l.length := by
  induction l with
  | nil => rfl
  | cons x xs ih => rw [sortRows, length_insertRow, ih]; rfl

/-- Unfolding the comparator: what a sorted adjacent-or-later pair means
for the claimed ordering properties. -/
theorem rowLE_spec {a b : TableSearchResult} (h : rowLE a b = true) :
    typeOrder a.usageType ≤ typeOrder b.usageType ∧
    ¬(a.usageType = UsageType.CRUD ∧ b.usageType = UsageType.Browse) ∧
    (a.usageType = b.usageType → b.references ≤ a.references) := by
  simp only [rowLE, Bool.or_eq_true, Bool.and_eq_true, decide_eq_true_eq, beq_iff_eq] at h
  refine ⟨by omega, ?_, ?_⟩
  · rintro ⟨ha, hb⟩
    rw [ha, hb] at h
    simp [typeOrder] at h
  · intro he
    rw [he] at h
    omega

theorem counts_partition (l : List TableSearchResult) :
    (l.filter (fun r => r.usageType == UsageType.Browse)).length
      + (l.filter (fun r => r.usageType == UsageType.CRUD)).length
      + (l.filter (fun r => r.usageType == UsageType.Report)).length
      + (l.filter (fun r =>
          !([UsageType.Browse, UsageType.CRUD, UsageType.Report].contains r.usageType))).length
      = l.length := by
  induction l with
  | nil => rfl
  | cons x t ih =>
    cases hx : x.usageType <;>
      simp only [List.filter_cons, hx] <;>
      simp at ih ⊢ <;> omega

theorem counts_other_split (l : List TableSearchResult) :
    (l.filter (fun r =>
        !([UsageType.Browse, UsageType.CRUD, UsageType.Report].contains r.usageType))).length
      = (l.filter (fun r => r.usageType == UsageType.Query)).length
        + (l.filter (fun r => r.usageType == UsageType.Integration)).length
        + (l.filter (fun r => r.usageType == UsageType.Other)).length := by
  induction l with
  | nil => rfl
  | cons x t ih =>
    cases hx : x.usageType <;>
      simp only [List.filter_cons, hx] <;>
      simp at ih ⊢ <;> omega

/- Claim C7: ordering of table-search results. -/

/-- C7: the sort ranks are Browse 1, CRUD 2, Query 3, Report 4,
Integration 5, Other 6, and in every search result list each pair of rows
in order has ascending category rank (so no CRUD row ever precedes a
Browse row) and, within one category, descending occurrence count. -/
theorem c7_result_ordering (st : ClassifierState) (fs : String → Option String)
    (allFiles : List String) (tableName : String) (includeStandard : Bool)
    (maxResults : Nat) :
    (typeOrder UsageType.Browse = 1 ∧ typeOrder UsageType.CRUD = 2 ∧
      typeOrder UsageType.Query = 3 ∧ typeOrder UsageType.Report = 4 ∧
      typeOrder UsageType.Integration = 5 ∧ typeOrder UsageType.Other = 6) ∧
    ((executeSearchByTable st fs allFiles tableName includeStandard maxResults).1.results).Pairwise
      (fun a b =>
        typeOrder a.usageType ≤ typeOrder b.usageType ∧
        ¬(a.usageType = UsageType.CRUD ∧ b.usageType = UsageType.Browse) ∧
        (a.usageType = b.usageType → b.references ≤ a.references)) := by
  refine ⟨by decide, ?_⟩
  exact (pairwise_sortRows _).imp (fun h => rowLE_spec h)

/- Claim C10: the summary counts partition the result list. -/

/-- C10: in every search outcome, browseRoutines + crudRoutines +
reportRoutines + otherRoutines equals totalFound, which equals the number
of returned rows; otherRoutines counts exactly the rows whose category is
none of Browse, CRUD, Report — that is, the Query, Integration and Other
rows. -/
theorem c10_summary_partition (st : ClassifierState) (fs : String → Option String)
    (allFiles : List String) (tableName : String) (includeStandard : Bool)
    (maxResults : Nat) :
    ((executeSearchByTable st fs allFiles tableName includeStandard maxResults).1.summary.browseRoutines
      + (executeSearchByTable st fs allFiles tableName includeStandard maxResults).1.summary.crudRoutines
      + (executeSearchByTable st fs allFiles tableName includeStandard maxResults).1.summary.reportRoutines
      + (executeSearchByTable st fs allFiles tableName includeStandard maxResults).1.summary.otherRoutines
      = (executeSearchByTable st fs allFiles tableName includeStandard maxResults).1.totalFound) ∧
    ((executeSearchByTable st fs allFiles tableName includeStandard maxResults).1.totalFound
      = (executeSearchByTable st fs allFiles tableName includeStandard maxResults).1.results.length) ∧
    ((executeSearchByTable st fs allFiles tableName includeStandard maxResults).1.summary.otherRoutines
      = ((executeSearchByTable st fs allFiles tableName includeStandard maxResults).1.results.filter
          (fun r => r.usageType == UsageType.Query)).length
        + ((executeSearchByTable st fs allFiles tableName includeStandard maxResults).1.results.filter
            (fun r => r.usageType == UsageType.Integration)).length
        + ((executeSearchByTable st fs allFiles tableName includeStandard maxResults).1.results.filter
            (fun r => r.usageType == UsageType.Other)).length) :=
  ⟨counts_partition _, rfl, counts_other_split _⟩

/- Claim C3: the maxResults cap. The source checks the cap only after
pushing a row, so the bound holds for every positive maxResults but a cap
of zero still lets one row through. -/

theorem searchGo_length_le (fs : String → Option String) (tblU : String)
    (inc : Bool) (maxR : Nat) :
    ∀ (files : List String) (st : ClassifierState) (acc : List TableSearchResult),
      acc.length < maxR → ((searchGo fs tblU inc maxR files st acc).1).length ≤ maxR := by
  intro files
  induction files with
  | nil =>
    intro st acc h
    simpa [searchGo] using Nat.le_of_lt h
  | cons fp rest ih =>
    intro st acc h
    rw [searchGo]
    cases hfs : fs fp with
    | none => exact ih st acc h
    | some content =>
      dsimp only
      split
      · exact ih st acc h
      · split
        · exact ih _ acc h
        · split
          · simp only [List.length_append, List.length_cons, List.length_nil]
            omega
          · rename_i hgo
            apply ih
            simp only [List.length_append, List.length_cons, List.length_nil] at hgo ⊢
            omega

/-- The three-file repository of the concrete C3 scenario: every file
references PD3, so all three qualify. -/
def sampleFS3 : String → Option String := fun p =>
  if p = "root/A.prw" then some "PD3"
  else if p = "root/B.prw" then some "PD3 x"
  else if p = "root/C.prw" then some "PD3 y"
  else none

/-- The walk result of the concrete C3 scenario. -/
def sampleFiles3 : List String := ["root/A.prw", "root/B.prw", "root/C.prw"]

/-- C3 counterexample: with maxResults = 0 the search over a tree with one
or more qualifying files still returns one row, so the number of returned
rows exceeds the requested maximum — the cap is tested only after a row
has been appended. -/
theorem c3_counterexample :
    ¬((executeSearchByTable initialState sampleFS3 sampleFiles3 "PD3" true 0).1.results.length
      ≤ 0) := by
  decide

/-- C3 amended: for every requested maximum of at least one, the number of
returned rows never exceeds maxResults; in particular, requesting 1
against a tree containing 3 qualifying files returns exactly 1 row. -/
theorem c3_maxResults_cap :
    (∀ (st : ClassifierState) (fs : String → Option String) (allFiles : List String)
      (tableName : String) (includeStandard : Bool) (maxResults : Nat),
      1 ≤ maxResults →
      (executeSearchByTable st fs allFiles tableName includeStandard maxResults).1.results.length
        ≤ maxResults) ∧
    (executeSearchByTable initialState sampleFS3 sampleFiles3 "PD3" true 1).1.results.length
      = 1 := by
  refine ⟨?_, by decide⟩
  intro st fs allFiles tableName includeStandard maxResults hmax
  show (sortRows (searchGo fs (jsToUpper tableName) includeStandard maxResults allFiles st []).1).length ≤ maxResults
  rw [length_sortRows]
  exact searchGo_length_le fs (jsToUpper tableName) includeStandard maxResults allFiles st []
    (by simpa using hmax)

/-- C3 witness: the amended bound applied to the concrete three-file tree
with maxResults = 2. -/
theorem c3_maxResults_cap_witness :
    (executeSearchByTable initialState sampleFS3 sampleFiles3 "PD3" true 2).1.results.length
      ≤ 2 :=
  c3_maxResults_cap.1 initialState sampleFS3 sampleFiles3 "PD3" true 2 (by decide)

/- Claim C9: the not-found outcome. Supporting lemmas: every listed
variation occurs verbatim inside the message, and the variation list of a
normalized routine always holds at least 14 distinct entries. -/

theorem infix_fmtVariationLines (l : List String) (v : String) (hv : v ∈ l) :
    v.data <:+: (fmtVariationLines l).data := by
  induction l with
  | nil => cases hv
  | cons x xs ih =>
    cases xs with
    | nil =>
      rcases List.mem_cons.mp hv with rfl | h
      · show v.data <:+: ("  - " ++ v).data
        rw [String.data_append]
        exact ⟨"  - ".data, [], by simp⟩
      · cases h
    | cons y ys =>
      rcases List.mem_cons.mp hv with rfl | h
      · show v.data <:+: ("  - " ++ v ++ "\n" ++ fmtVariationLines (y :: ys)).data
        simp only [String.data_append]
        exact ⟨"  - ".data, "\n".data ++ (fmtVariationLines (y :: ys)).data, by simp⟩
      · have h1 := ih h
        show v.data <:+: ("  - " ++ x ++ "\n" ++ fmtVariationLines (y :: ys)).data
        simp only [String.data_append]
        exact h1.trans (List.suffix_append _ _).isInfix

theorem infix_notFoundMessage (routine env repoPath : String) (variations : List String)
    (v : String) (hv : v ∈ variations.take 10) :
    v.data <:+: (notFoundMessage routine env repoPath variations).data := by
  refine (infix_fmtVariationLines (variations.take 10) v hv).trans ?_
  unfold notFoundMessage
  rw [String.data_append, String.data_append]
  exact List.infix_append _ _ _

theorem normalizeRoutineName_fields (r : String) (n : NormalizedRoutine)
    (hn : normalizeRoutineName r = some n) :
    n.withPrefixForm.data = 'U' :: '_' :: n.withoutPrefixForm.data ∧
    n.variations
      = uniqueFirst (rawVariations n.baseName n.baseNameUpper
          n.withPrefixForm n.withoutPrefixForm) := by
  by_cases hr : (jsTrim r).data = []
  · rw [normalizeRoutineName, if_pos hr] at hn
    cases hn
  · rw [normalizeRoutineName, if_neg hr] at hn
    injection hn with hn
    subst hn
    refine ⟨?_, rfl⟩
    by_cases hm : strStartsWith (jsToUpper (stripExtension (jsTrim r))) "U_" = true
    · simp only [if_pos hm]
      have htake : (jsToUpper (stripExtension (jsTrim r))).data.take 2 = ['U', '_'] := by
        have h2 : "U_".data = ['U', '_'] := rfl
        have h3 := hm
        rw [strStartsWith, startsWithL, h2] at h3
        simpa using eq_of_beq h3
      conv_lhs => rw [← List.take_append_drop 2 (jsToUpper (stripExtension (jsTrim r))).data]
      rw [htake]
      rfl
    · simp only [if_neg hm]
      rw [String.data_append]
      rfl

theorem fourteen_le_variations (bn bnu wp wo : String)
    (hrel : wp.data = 'U' :: '_' :: wo.data) :
    14 ≤ (uniqueFirst (rawVariations bn bnu wp wo)).length := by
  have hwlen : wp.data.length = wo.data.length + 2 := by
    rw [hrel]; simp
  have hwpwo : wp ≠ wo := by
    intro he
    rw [he] at hwlen
    omega
  have hSnodup : ("" :: extensionsList).Nodup := by decide
  have helemLen : ∀ e ∈ ("" :: extensionsList),
      e.data.length = 0 ∨ e.data.length = 4 ∨ e.data.length = 5 := by decide
  have hBnodup : ([wp, wo] : List String).Nodup := by simp [hwpwo]
  have hPnodup : ((("" :: extensionsList) ×ˢ [wp, wo])).Nodup := hSnodup.product hBnodup
  have hInj : ∀ p ∈ ("" :: extensionsList) ×ˢ [wp, wo],
      ∀ q ∈ ("" :: extensionsList) ×ˢ [wp, wo],
      (fun p : String × String => p.2 ++ p.1) p = (fun p : String × String => p.2 ++ p.1) q
        → p = q := by
    rintro ⟨e₁, b₁⟩ hp ⟨e₂, b₂⟩ hq hf
    obtain ⟨he₁, hb₁⟩ := List.mem_product.mp hp
    obtain ⟨he₂, hb₂⟩ := List.mem_product.mp hq
    simp only at hf
    have hd : b₁.data ++ e₁.data = b₂.data ++ e₂.data := by
      have := congrArg String.data hf
      rwa [String.data_append, String.data_append] at this
    have hlen := congrArg List.length hd
    simp only [List.length_append] at hlen
    have hb₁' : b₁ = wp ∨ b₁ = wo := by simpa using hb₁
    have hb₂' : b₂ = wp ∨ b₂ = wo := by simpa using hb₂
    rcases hb₁' with h₁ | h₁ <;> rcases hb₂' with h₂ | h₂
    · rw [h₁, h₂] at hd
      have he : e₁ = e₂ := String.ext (List.append_cancel_left hd)
      rw [h₁, h₂, he]
    · exfalso
      rw [h₁, h₂] at hlen
      rcases helemLen e₁ he₁ with h1 | h1 | h1 <;>
        rcases helemLen e₂ he₂ with h2 | h2 | h2 <;> omega
    · exfalso
      rw [h₁, h₂] at hlen
      rcases helemLen e₁ he₁ with h1 | h1 | h1 <;>
        rcases helemLen e₂ he₂ with h2 | h2 | h2 <;> omega
    · rw [h₁, h₂] at hd
      have he : e₁ = e₂ := String.ext (List.append_cancel_left hd)
      rw [h₁, h₂, he]
  have hLnodup :
      (((("" :: extensionsList) ×ˢ [wp, wo]).map
        (fun p : String × String => p.2 ++ p.1))).Nodup := hPnodup.map_on hInj
  have hLlen : ((("" :: extensionsList) ×ˢ [wp, wo]).map
      (fun p : String × String => p.2 ++ p.1)).length = 14 := by
    simp [List.length_product, extensionsList]
  have happend_empty : ∀ s : String, s ++ "" = s := by
    intro s
    apply String.ext
    rw [String.data_append]
    simp
  have hsub : ∀ x ∈ (("" :: extensionsList) ×ˢ [wp, wo]).map
      (fun p : String × String => p.2 ++ p.1),
      x ∈ uniqueFirst (rawVariations bn bnu wp wo) := by
    intro x hx
    rw [mem_uniqueFirst]
    rcases List.mem_map.mp hx with ⟨⟨e, b⟩, hpe, rfl⟩
    obtain ⟨he, hb⟩ := List.mem_product.mp hpe
    simp only
    rcases List.mem_cons.mp he with rfl | he
    · rw [happend_empty b]
      rcases (by simpa using hb : b = wp ∨ b = wo) with rfl | rfl <;>
        simp [rawVariations]
    · rcases (by simpa using hb : b = wp ∨ b = wo) with rfl | rfl <;>
      · refine List.mem_append.mpr (Or.inr ?_)
        refine List.mem_flatMap.mpr ⟨e, he, ?_⟩
        simp
  have h1 : ((("" :: extensionsList) ×ˢ [wp, wo]).map
      (fun p : String × String => p.2 ++ p.1)).toFinset.card = 14 := by
    rw [List.toFinset_card_of_nodup hLnodup, hLlen]
  have h2 : ((("" :: extensionsList) ×ˢ [wp, wo]).map
      (fun p : String × String => p.2 ++ p.1)).toFinset
      ⊆ (uniqueFirst (rawVariations bn bnu wp wo)).toFinset := by
    intro x hx
    rw [List.mem_toFinset] at hx ⊢
    exact hsub x hx
  calc 14 = ((("" :: extensionsList) ×ˢ [wp, wo]).map
        (fun p : String × String => p.2 ++ p.1)).toFinset.card := h1.symm
    _ ≤ (uniqueFirst (rawVariations bn bnu wp wo)).toFinset.card := Finset.card_le_card h2
    _ ≤ (uniqueFirst (rawVariations bn bnu wp wo)).length := List.toFinset_card_le _

/-- C9: whenever findRoutineFile locates no file under the resolved root,
the operation returns the structured not-found envelope (the function is
total — no exception): ok is false, the envelope carries the searched root
and the full variation list in its debug payload, its variation list has
at least 10 (indeed 14) entries, and each of the first ten variations
appears verbatim in the message. -/
theorem c9_notfound_outcome (fileExists : String → Bool) (walkFiles : List String)
    (env repoPath routine : String) (n : NormalizedRoutine)
    (hn : normalizeRoutineName routine = some n)
    (hmiss : findRoutineFile fileExists walkFiles repoPath n = none) :
    ∃ info, lookupRoutineFile fileExists walkFiles env repoPath routine n
        = LookupOutcome.notFound info ∧
      info.ok = false ∧
      info.searchedPath = repoPath ∧
      info.searchedVariations = n.variations ∧
      10 ≤ n.variations.length ∧
      ∀ v ∈ n.variations.take 10, v.data <:+: info.message.data := by
  obtain ⟨hrel, hvar⟩ := normalizeRoutineName_fields routine n hn
  unfold lookupRoutineFile
  rw [hmiss]
  refine ⟨_, rfl, rfl, rfl, rfl, ?_, ?_⟩
  · rw [hvar]
    exact le_trans (by omega) (fourteen_le_variations _ _ _ _ hrel)
  · intro v hv
    exact infix_notFoundMessage routine env repoPath n.variations v hv

/-- The NormalizedRoutine value of U_PCMCTF43.prw, used by the C9 witness. -/
def sampleNormalized : NormalizedRoutine :=
  { original := "U_PCMCTF43.prw"
    baseName := "U_PCMCTF43"
    baseNameUpper := "U_PCMCTF43"
    withPrefixForm := "U_PCMCTF43"
    withoutPrefixForm := "PCMCTF43"
    variations := ["U_PCMCTF43", "PCMCTF43", "U_PCMCTF43.prw", "PCMCTF43.prw",
      "U_PCMCTF43.PRW", "PCMCTF43.PRW", "U_PCMCTF43.tlpp", "PCMCTF43.tlpp",
      "U_PCMCTF43.TLPP", "PCMCTF43.TLPP", "U_PCMCTF43.prx", "PCMCTF43.prx",
      "U_PCMCTF43.PRX", "PCMCTF43.PRX"] }

/-- C9 witness: a lookup of U_PCMCTF43.prw against a root with no files. -/
theorem c9_notfound_outcome_witness :
    normalizeRoutineName "U_PCMCTF43.prw" = some sampleNormalized ∧
    ∃ info, lookupRoutineFile (fun _ => false) [] "HML" "root" "U_PCMCTF43.prw"
        sampleNormalized = LookupOutcome.notFound info ∧
      info.ok = false ∧
      info.searchedPath = "root" ∧
      info.searchedVariations = sampleNormalized.variations ∧
      10 ≤ sampleNormalized.variations.length ∧
      ∀ v ∈ sampleNormalized.variations.take 10, v.data <:+: info.message.data :=
  ⟨by decide,
    c9_notfound_outcome (fun _ => false) [] "HML" "root" "U_PCMCTF43.prw"
      sampleNormalized (by decide) (by decide)⟩

end MPE
